import Mathlib

/-!
Verification development for the SES-DMA tiered memory consolidation engine.

The definitions below are a shallow embedding of the Python sources
(`ses-dma.py`, `knowledge_bases.py`, `advanced_learning.py`): pure fragments
become Lean functions over explicit state, Python floats become `ℚ`, Python
dicts keyed by strings become association lists, and a handler that may raise
is modelled by a `fails` flag whose raising aborts the enclosing fold exactly
as an exception aborts the enclosing loop.  Methods that the sources call but
never define (`add_to_stm`, `archive_memory`, the snapshot storage and restore
helpers) are modelled from the specification and marked as such in their doc
comments.
-/

namespace SesDma

/-- Memory tiers of the data model: short-term, long-term, archived. -/
inductive Tier where
  | stm
  | ltm
  | archived
deriving DecidableEq

/-- A unit of remembered content, mirroring the columns of the memory tables in
`ses-dma.py` (`content`, `timestamp`, `access_count`, `importance_score`,
`connections`) together with the tier the item currently occupies. -/
structure MemoryItem where
  id : Nat
  content : String
  access_count : Nat
  importance_score : ℚ
  timestamp : ℚ
  connections : List Nat
  tier : Tier
deriving DecidableEq

/-- Embedding of `EvolutionSystem.calculate_fitness` (src/ses-dma.py lines
95-103): the score is the plain average of three metrics — recency, the raw
`access_count`, and `importance_score` — summed and divided by the number of
metrics (3).  `calculate_recency` is not defined in the sources, so its value
is taken as the `recency` argument; per the specification it lies in (0,1]. -/
def calculate_fitness (recency : ℚ) (m : MemoryItem) : ℚ :=
  (recency + (m.access_count : ℚ) + m.importance_score) / 3

/-- Embedding of `MemoryController.consolidate_memories` (src/ses-dma.py lines
81-88): every STM candidate whose fitness is `>= ltm_threshold` is promoted to
LTM; the function returns the promoted items.  `get_stm_candidates` and
`promote_to_ltm` are not defined in the sources, so the candidates are taken
as the given list and promotion as selection into the result. -/
def consolidate_memories (recency : MemoryItem → ℚ) (ltm_threshold : ℚ)
    (memories : List MemoryItem) : List MemoryItem :=
  memories.filter (fun m => decide (calculate_fitness (recency m) m ≥ ltm_threshold))

/-- Embedding of `EvolutionSystem.prune_memories` (src/ses-dma.py lines
105-111): every pruning candidate whose fitness is `< ltm_threshold` is
archived; the function returns the archived items.  The code compares against
`config["memory"]["ltm_threshold"]` — there is no separate `prune_threshold`
anywhere in the sources or the config dict. -/
def prune_memories (recency : MemoryItem → ℚ) (ltm_threshold : ℚ)
    (candidates : List MemoryItem) : List MemoryItem :=
  candidates.filter (fun m => decide (calculate_fitness (recency m) m < ltm_threshold))

/-- A concrete LTM item whose fitness under a recency of 1/5 is exactly 1/2:
(1/5 + 1 + 3/10) / 3 = 1/2. -/
def ltmItem : MemoryItem :=
  { id := 7
    content := "fact"
    access_count := 1
    importance_score := 3/10
    timestamp := 0
    connections := []
    tier := Tier.ltm }

/-- A concrete valid item: `access_count = 4`, `importance_score = 1/2`. -/
def touchedItem : MemoryItem :=
  { id := 3
    content := "note"
    access_count := 4
    importance_score := 1/2
    timestamp := 0
    connections := []
    tier := Tier.stm }

/-- State of the short-term store: current STM items plus the tombstone list of
archived items. -/
structure StmState where
  items : List MemoryItem
  archived : List MemoryItem
deriving DecidableEq

/-- The only admission failure: empty content. -/
inductive AdmitError where
  | invalidInput
deriving DecidableEq

/-- First item of the list minimizing the fitness function (earlier item wins a
tie, matching the oldest-first tie-break of the specification when the list is
kept in admission order). -/
def minByFitness (fit : MemoryItem → ℚ) : List MemoryItem → Option MemoryItem
  | [] => none
  | m :: ms =>
    match minByFitness fit ms with
    | none => some m
    | some v => if fit m ≤ fit v then some m else some v

/-- Removes the first occurrence of an item from a list. -/
def eraseItem (v : MemoryItem) : List MemoryItem → List MemoryItem
  | [] => []
  | m :: ms => if m = v then ms else m :: eraseItem v ms

/-- Archives the lowest-fitness STM item: it leaves the STM list and is
appended to the archived tombstones. -/
def evictLowest (fit : MemoryItem → ℚ) (st : StmState) : StmState :=
  match minByFitness fit st.items with
  | none => st
  | some v => { items := eraseItem v st.items, archived := st.archived ++ [v] }

/-- Modelled from the spec: `MemoryStore.add_to_stm` is called by
`MemoryController.process_input` (src/ses-dma.py line 77) but never defined
under src.  Spec §4.2 `admit`: if STM is at capacity, first archive the
lowest-fitness STM item under the current fitness function, then admit the new
item; admission never fails due to capacity, only with `InvalidInputError`
when content is empty. -/
def add_to_stm (fit : MemoryItem → ℚ) (capacity : Nat) (st : StmState)
    (item : MemoryItem) : Except AdmitError StmState :=
  if item.content = "" then Except.error AdmitError.invalidInput
  else
    let st1 := if capacity ≤ st.items.length then evictLowest fit st else st
    Except.ok { items := st1.items ++ [item], archived := st1.archived }

/-- A whole sequence of admissions; a failed admission leaves the state
unchanged, exactly as a raised `InvalidInputError` does. -/
def admitAll (fit : MemoryItem → ℚ) (capacity : Nat) :
    StmState → List MemoryItem → StmState
  | st, [] => st
  | st, i :: rest =>
    match add_to_stm fit capacity st i with
    | Except.error _ => admitAll fit capacity st rest
    | Except.ok st2 => admitAll fit capacity st2 rest

/-- Modelled from the spec: `archive_memory` is called by
`EvolutionSystem.prune_memories` (src/ses-dma.py line 111) but never defined
under src.  Spec §4.2 `archive`: moves the item to ARCHIVED and severs its
connections, removing its id from every connected item's `connections` set. -/
def archive_memory (store : List MemoryItem) (targetId : Nat) : List MemoryItem :=
  store.map (fun m =>
    if m.id = targetId then { m with tier := Tier.archived, connections := [] }
    else { m with connections := m.connections.filter (fun c => decide (c ≠ targetId)) })

/-- State of the engine as the backup coordinator sees it: the full item set. -/
structure EngineState where
  items : List MemoryItem
deriving DecidableEq

/-- A stored snapshot.  Spec §6 gives the snapshot store a `write`/`read`
contract that returns the written blob unchanged, so `store_backup` followed by
`load_backup` (neither defined under src) is the identity and the snapshot is
kept as its item set. -/
structure BackupData where
  items : List MemoryItem
deriving DecidableEq

/-- Embedding of `BackupRecoverySystem.create_backup`
(src/advanced_learning.py lines 136-148): captures the full current state. -/
def create_backup (s : EngineState) : BackupData :=
  { items := s.items }

/-- Modelled from the spec: `verify_recovery` is called by
`recover_from_backup` (src/advanced_learning.py line 159) but never defined
under src.  Spec §4.5: the verification pass checks, among other conditions,
that no item holds a dangling `connections` reference. -/
def verify_recovery (s : EngineState) : Bool :=
  s.items.all (fun m => m.connections.all (fun c => s.items.any (fun x => x.id = c)))

/-- Embedding of `BackupRecoverySystem.recover_from_backup`
(src/advanced_learning.py lines 150-159): the restore helpers replace the
engine state with the backup contents unconditionally, and only then is
`verify_recovery` run and its result returned; the source has no rollback path
and never consults the pre-recovery state again. -/
def recover_from_backup (b : BackupData) (_pre : EngineState) : EngineState × Bool :=
  let restored : EngineState := { items := b.items }
  (restored, verify_recovery restored)

/-- The empty engine state. -/
def emptyEngine : EngineState :=
  { items := [] }

/-- A snapshot holding one item that references connection id 99, which names
no item of the snapshot: its verification fails. -/
def badBackup : BackupData :=
  { items := [{ id := 1
                content := "dangling"
                access_count := 1
                importance_score := 0
                timestamp := 0
                connections := [99]
                tier := Tier.ltm }] }

/-- A bus subscriber, identified by `sid`; `fails` says whether its
`process_message` handler raises. -/
structure Subscriber where
  sid : Nat
  fails : Bool
deriving DecidableEq

/-- The error a raising handler propagates. -/
inductive PublishError where
  | subscriberError
deriving DecidableEq

/-- Looks a topic up in the subscriber table (a Python dict keyed by topic
strings, modelled as an association list). -/
def lookupTopic : List (String × List Subscriber) → String → Option (List Subscriber)
  | [], _ => none
  | (t0, subs) :: rest, t => if t0 = t then some subs else lookupTopic rest t

/-- Appends a subscriber to a topic's list, creating the entry when absent —
the body of `MessageBroker.subscribe` (src/knowledge_bases.py lines 67-70),
which appends unconditionally. -/
def addSub : List (String × List Subscriber) → String → Subscriber →
    List (String × List Subscriber)
  | [], t, cb => [(t, [cb])]
  | (t0, subs) :: rest, t, cb =>
    if t0 = t then (t0, subs ++ [cb]) :: rest
    else (t0, subs) :: addSub rest t cb

/-- The broker state relevant to publish and subscribe: the topic → subscriber
table of `MessageBroker`. -/
structure MessageBroker where
  subscribers : List (String × List Subscriber)
deriving DecidableEq

/-- Embedding of `MessageBroker.subscribe` (src/knowledge_bases.py lines
67-70). -/
def subscribe (b : MessageBroker) (topic : String) (cb : Subscriber) : MessageBroker :=
  { b with subscribers := addSub b.subscribers topic cb }

/-- The delivery loop of `publish`: handlers are awaited in list order; a
raising handler aborts the loop, so the result is the list of deliveries that
happened (subscriber id paired with the message) plus the propagated error, if
any. -/
def deliverAll : List Subscriber → String → List (Nat × String) × Option PublishError
  | [], _ => ([], none)
  | sub :: rest, msg =>
    if sub.fails then ([], some PublishError.subscriberError)
    else
      let r := deliverAll rest msg
      ((sub.sid, msg) :: r.1, r.2)

/-- Embedding of `MessageBroker.publish` (src/knowledge_bases.py lines 62-65):
when the topic has subscribers they are processed in subscription order with
no exception handling; a topic with no entry is skipped and the call returns
normally. -/
def publish (b : MessageBroker) (topic msg : String) :
    List (Nat × String) × Option PublishError :=
  match lookupTopic b.subscribers topic with
  | none => ([], none)
  | some subs => deliverAll subs msg

/-- A concrete item with id 1 connected to id 2. -/
def connA : MemoryItem :=
  { id := 1
    content := "a"
    access_count := 1
    importance_score := 0
    timestamp := 0
    connections := [2]
    tier := Tier.ltm }

/-- A concrete item with id 2 connected to id 1. -/
def connB : MemoryItem :=
  { id := 2
    content := "b"
    access_count := 1
    importance_score := 0
    timestamp := 0
    connections := [1]
    tier := Tier.ltm }

/-- Claim C1: the claim says the fitness score always lies in [0,1] for a valid
item, but `calculate_fitness` averages the raw unbounded `access_count` into
the score (and takes no weight vector at all): a valid item with recency 1
(fresh), `access_count = 4` and `importance_score = 1/2` scores 11/6 > 1. -/
theorem calculate_fitness_exceeds_one :
    calculate_fitness 1 touchedItem = 11/6 ∧ (1 : ℚ) < 11/6 := by
  constructor
  · norm_num [calculate_fitness, touchedItem]
  · norm_num

/-- Claim C7: a consolidation cycle promotes exactly the STM candidates whose
fitness score is greater than or equal to `ltm_threshold`. -/
theorem consolidate_promotes_iff (recency : MemoryItem → ℚ) (t : ℚ)
    (memories : List MemoryItem) (m : MemoryItem) :
    m ∈ consolidate_memories recency t memories ↔
      m ∈ memories ∧ calculate_fitness (recency m) m ≥ t := by
  simp [consolidate_memories, List.mem_filter]

/-- Claim C3 (amended): the pruning pass archives an LTM candidate exactly when
its fitness score is below `ltm_threshold` — the code has no separate
`prune_threshold`. -/
theorem prune_archives_iff (recency : MemoryItem → ℚ) (t : ℚ)
    (candidates : List MemoryItem) (m : MemoryItem) :
    m ∈ prune_memories recency t candidates ↔
      m ∈ candidates ∧ calculate_fitness (recency m) m < t := by
  simp [prune_memories, List.mem_filter]

/-- Claim C3 (counterexample): with `ltm_threshold = 0.6` an LTM item whose
fitness score is exactly 0.5 IS archived by the pruning pass, contradicting the
claim that an item scoring 0.5 is not pruned: the code compares against
`ltm_threshold`, and no lower `prune_threshold` exists in the sources. -/
theorem prune_archives_half_item :
    calculate_fitness (1/5) ltmItem = 1/2 ∧
    prune_memories (fun _ => 1/5) (6/10) [ltmItem] = [ltmItem] := by
  constructor
  · norm_num [calculate_fitness, ltmItem]
  · norm_num [prune_memories, List.filter, calculate_fitness, ltmItem]

/-- Claim C4 (amended): `recover_from_backup` unconditionally replaces the
store contents with the backup's contents and only then runs verification,
returning its result; there is no rollback path, so the resulting state is the
restored one no matter what verification says. -/
theorem recover_overwrites (b : BackupData) (pre : EngineState) :
    recover_from_backup b pre =
      ({ items := b.items }, verify_recovery { items := b.items }) := rfl

/-- Claim C4 (counterexample): recovering a snapshot whose item references a
connection id absent from the snapshot fails verification, yet the store ends
up holding the restored contents, not its pre-recovery (empty) state — the
claim that the state equals the pre-recovery state is false. -/
theorem recover_not_atomic :
    (recover_from_backup badBackup emptyEngine).2 = false ∧
    (recover_from_backup badBackup emptyEngine).1 ≠ emptyEngine := by
  constructor
  · rfl
  · intro h
    have : (recover_from_backup badBackup emptyEngine).1.items = emptyEngine.items := by
      rw [h]
    simp [recover_from_backup, badBackup, emptyEngine] at this

/-- Claim C8: recovering from a backup taken of the current state reproduces
that state exactly (ids, tiers and all fields of every item). -/
theorem backup_roundtrip (s : EngineState) :
    (recover_from_backup (create_backup s) s).1 = s := rfl

/-- Helper: looking up a topic after `addSub` finds the previous subscriber
list (empty when the topic was absent) with the new subscriber appended. -/
theorem lookupTopic_addSub (l : List (String × List Subscriber)) (t : String)
    (cb : Subscriber) :
    lookupTopic (addSub l t cb) t = some ((lookupTopic l t).getD [] ++ [cb]) := by
  induction l with
  | nil => simp [addSub, lookupTopic]
  | cons p rest ih =>
    obtain ⟨t0, subs⟩ := p
    by_cases h : t0 = t
    · simp [addSub, lookupTopic, h]
    · simp [addSub, lookupTopic, h, ih]

/-- Claim C9 (amended): `subscribe` appends unconditionally — after
`subscribe(topic, handler)` the topic's subscriber list is the previous list
with the handler appended, whether or not the handler was already registered,
so a second identical subscribe registers a second copy. -/
theorem subscribe_appends (b : MessageBroker) (t : String) (cb : Subscriber) :
    lookupTopic (subscribe b t cb).subscribers t =
      some ((lookupTopic b.subscribers t).getD [] ++ [cb]) := by
  simpa [subscribe] using lookupTopic_addSub b.subscribers t cb

/-- Claim C9 (counterexample): subscribing the same (topic, handler) pair twice
does not leave the bus in the state one subscribe produces — the handler is
registered twice and a subsequent publish delivers the message to it twice. -/
theorem subscribe_not_idempotent :
    subscribe (subscribe (MessageBroker.mk []) "t" (Subscriber.mk 0 false)) "t"
        (Subscriber.mk 0 false) ≠
      subscribe (MessageBroker.mk []) "t" (Subscriber.mk 0 false) ∧
    publish
        (subscribe (subscribe (MessageBroker.mk []) "t" (Subscriber.mk 0 false)) "t"
          (Subscriber.mk 0 false)) "t" "m" =
      ([(0, "m"), (0, "m")], none) := by
  constructor
  · simp [subscribe, addSub]
  · simp [subscribe, addSub, publish, lookupTopic, deliverAll]

/-- Claim C6 (amended): a subscriber whose handler raises aborts the publish at
that subscriber — every subscriber before it receives the message, no
subscriber after it does, and the error propagates out of `publish`. -/
theorem publish_error_aborts (pre post : List Subscriber) (sub : Subscriber)
    (topic msg : String) (hfail : sub.fails = true)
    (hpre : ∀ s ∈ pre, s.fails = false) :
    publish (MessageBroker.mk [(topic, pre ++ sub :: post)]) topic msg =
      (pre.map (fun s => (s.sid, msg)), some PublishError.subscriberError) := by
  have hd : ∀ l : List Subscriber, (∀ s ∈ l, s.fails = false) →
      deliverAll (l ++ sub :: post) msg =
        (l.map (fun s => (s.sid, msg)), some PublishError.subscriberError) := by
    intro l
    induction l with
    | nil => intro _; simp [deliverAll, hfail]
    | cons a rest ih =>
      intro hl
      have ha : a.fails = false := hl a (by simp)
      have hrest : ∀ s ∈ rest, s.fails = false := fun s hs =>
        hl s (List.mem_cons_of_mem a hs)
      simp [deliverAll, ha, ih hrest]
  simp [publish, lookupTopic, hd pre hpre]

/-- Witness for `publish_error_aborts`: one healthy subscriber, then a raising
one, then another healthy one — the first is delivered to, the error
propagates, the third receives nothing. -/
theorem publish_error_aborts_witness :
    (Subscriber.mk 1 true).fails = true ∧
    (∀ s ∈ [Subscriber.mk 0 false], s.fails = false) ∧
    publish
        (MessageBroker.mk
          [("t", [Subscriber.mk 0 false] ++ Subscriber.mk 1 true :: [Subscriber.mk 2 false])])
        "t" "m" =
      ([Subscriber.mk 0 false].map (fun s => (s.sid, "m")),
        some PublishError.subscriberError) :=
  ⟨rfl, by decide,
    publish_error_aborts [Subscriber.mk 0 false] [Subscriber.mk 2 false]
      (Subscriber.mk 1 true) "t" "m" rfl (by decide)⟩

/-- Claim C6 (counterexample): with subscribers [raises, healthy] on topic "t",
a publish delivers to nobody and propagates the handler's error — the raising
handler does prevent delivery to the remaining subscriber and aborts the
publishing operation, contradicting the claim. -/
theorem publish_aborts_on_error :
    publish (MessageBroker.mk [("t", [Subscriber.mk 0 true, Subscriber.mk 1 false])])
        "t" "m" =
      ([], some PublishError.subscriberError) := by
  simp [publish, lookupTopic, deliverAll]

/-- Claim C10: when no handler of the topic raises, `publish` delivers the
message to exactly the handlers subscribed to that topic at publish time, one
delivery per registration, in subscription order, and returns normally; a
topic with no subscribers gets the empty delivery list (the lookup defaults to
`[]`), with no error.  Handlers of other topics never appear in the delivery
list, since only the topic's own entry is consulted. -/
theorem publish_exact (b : MessageBroker) (topic msg : String)
    (hok : ∀ s ∈ (lookupTopic b.subscribers topic).getD [], s.fails = false) :
    publish b topic msg =
      (((lookupTopic b.subscribers topic).getD []).map (fun s => (s.sid, msg)),
        none) := by
  have hd : ∀ l : List Subscriber, (∀ s ∈ l, s.fails = false) →
      deliverAll l msg = (l.map (fun s => (s.sid, msg)), none) := by
    intro l
    induction l with
    | nil => intro _; simp [deliverAll]
    | cons a rest ih =>
      intro hl
      have ha : a.fails = false := hl a (by simp)
      have hrest : ∀ s ∈ rest, s.fails = false := fun s hs =>
        hl s (List.mem_cons_of_mem a hs)
      simp [deliverAll, ha, ih hrest]
  cases h : lookupTopic b.subscribers topic with
  | none => simp [publish, h]
  | some subs =>
    have hsubs : ∀ s ∈ subs, s.fails = false := by
      intro s hs
      exact hok s (by simp [h, hs])
    simp [publish, h, hd subs hsubs]

/-- Witness for `publish_exact`: two healthy subscribers on "t" receive the
message once each, in order, with no error. -/
theorem publish_exact_witness :
    (∀ s ∈ (lookupTopic
        (MessageBroker.mk [("t", [Subscriber.mk 0 false, Subscriber.mk 1 false])]).subscribers
        "t").getD [], s.fails = false) ∧
    publish (MessageBroker.mk [("t", [Subscriber.mk 0 false, Subscriber.mk 1 false])])
        "t" "m" =
      (((lookupTopic
          (MessageBroker.mk [("t", [Subscriber.mk 0 false, Subscriber.mk 1 false])]).subscribers
          "t").getD []).map (fun s => (s.sid, "m")), none) :=
  ⟨by decide,
    publish_exact (MessageBroker.mk [("t", [Subscriber.mk 0 false, Subscriber.mk 1 false])])
      "t" "m" (by decide)⟩

/-- Helper: the minimizer returned by `minByFitness` is a member of the list. -/
theorem minByFitness_mem (fit : MemoryItem → ℚ) :
    ∀ l : List MemoryItem, ∀ v : MemoryItem, minByFitness fit l = some v → v ∈ l := by
  intro l
  induction l with
  | nil => intro v h; simp [minByFitness] at h
  | cons m ms ih =>
    intro v h
    simp only [minByFitness] at h
    cases hm : minByFitness fit ms with
    | none =>
      rw [hm] at h
      simp only [Option.some.injEq] at h
      simp [← h]
    | some w =>
      rw [hm] at h
      by_cases hle : fit m ≤ fit w
      · simp only [hle, if_pos, Option.some.injEq] at h
        simp [← h]
      · simp only [hle, if_neg, not_false_iff, Option.some.injEq] at h
        exact List.mem_cons_of_mem m (ih v (by rw [hm, ← h]))

/-- Helper: a nonempty cons list has a minimizer. -/
theorem minByFitness_isSome (fit : MemoryItem → ℚ) (m : MemoryItem)
    (ms : List MemoryItem) : ∃ v, minByFitness fit (m :: ms) = some v := by
  simp only [minByFitness]
  cases minByFitness fit ms with
  | none => exact ⟨m, rfl⟩
  | some w =>
    by_cases h : fit m ≤ fit w
    · exact ⟨m, by simp [h]⟩
    · exact ⟨w, by simp [h]⟩

/-- Helper: any nonempty list has a minimizer. -/
theorem minByFitness_some (fit : MemoryItem → ℚ) (l : List MemoryItem)
    (h : l ≠ []) : ∃ v, minByFitness fit l = some v := by
  cases l with
  | nil => exact absurd rfl h
  | cons m ms => exact minByFitness_isSome fit m ms

/-- Helper: the minimizer's fitness is a lower bound for the list. -/
theorem minByFitness_le (fit : MemoryItem → ℚ) :
    ∀ l : List MemoryItem, ∀ v : MemoryItem, minByFitness fit l = some v →
      ∀ m ∈ l, fit v ≤ fit m := by
  intro l
  induction l with
  | nil => intro v h; simp [minByFitness] at h
  | cons m ms ih =>
    intro v h x hx
    simp only [minByFitness] at h
    cases hm : minByFitness fit ms with
    | none =>
      rw [hm] at h
      simp only [Option.some.injEq] at h
      subst h
      have hms : ms = [] := by
        cases ms with
        | nil => rfl
        | cons a as =>
          obtain ⟨w, hw⟩ := minByFitness_isSome fit a as
          rw [hw] at hm
          exact absurd hm (by simp)
      subst hms
      rcases List.mem_singleton.mp hx with rfl
      exact le_refl _
    | some w =>
      rw [hm] at h
      have hwle : ∀ y ∈ ms, fit w ≤ fit y := ih w hm
      by_cases hle : fit m ≤ fit w
      · simp only [if_pos hle, Option.some.injEq] at h
        subst h
        rcases List.mem_cons.mp hx with rfl | hxms
        · exact le_refl _
        · exact le_trans hle (hwle x hxms)
      · simp only [if_neg hle, Option.some.injEq] at h
        subst h
        rcases List.mem_cons.mp hx with rfl | hxms
        · exact le_of_lt (lt_of_not_le hle)
        · exact hwle x hxms

/-- Helper: erasing a member shortens the list by one. -/
theorem eraseItem_length (v : MemoryItem) :
    ∀ l : List MemoryItem, v ∈ l → (eraseItem v l).length + 1 = l.length := by
  intro l
  induction l with
  | nil => intro h; simp at h
  | cons m ms ih =>
    intro h
    by_cases hm : m = v
    · simp [eraseItem, hm]
    · have hv : v ∈ ms := by
        rcases List.mem_cons.mp h with rfl | hms
        · exact absurd rfl hm
        · exact hms
      simp only [eraseItem, hm, if_neg, not_false_iff, List.length_cons]
      rw [← ih hv]

/-- Helper: evicting from a nonempty STM shortens it by exactly one. -/
theorem evictLowest_length (fit : MemoryItem → ℚ) (st : StmState)
    (h : st.items ≠ []) :
    (evictLowest fit st).items.length + 1 = st.items.length := by
  obtain ⟨v, hv⟩ := minByFitness_some fit st.items h
  unfold evictLowest
  rw [hv]
  exact eraseItem_length v st.items (minByFitness_mem fit st.items v hv)

/-- Helper: a successful admission keeps STM within capacity. -/
theorem add_to_stm_length_le (fit : MemoryItem → ℚ) (cap : Nat) (hcap : 1 ≤ cap)
    (st : StmState) (hst : st.items.length ≤ cap) (item : MemoryItem)
    (st2 : StmState) (h : add_to_stm fit cap st item = Except.ok st2) :
    st2.items.length ≤ cap := by
  unfold add_to_stm at h
  by_cases hc : item.content = ""
  · simp [hc] at h
  · rw [if_neg hc] at h
    simp only [Except.ok.injEq] at h
    subst h
    by_cases hcl : cap ≤ st.items.length
    · have hne : st.items ≠ [] := by
        intro hnil
        rw [hnil] at hcl
        simp at hcl
        omega
      have hlen := evictLowest_length fit st hne
      simp only [if_pos hcl, List.length_append, List.length_singleton]
      omega
    · simp only [if_neg hcl, List.length_append, List.length_singleton]
      omega

/-- Helper: over any sequence of admissions, STM stays within capacity. -/
theorem admitAll_length_le (fit : MemoryItem → ℚ) (cap : Nat) (hcap : 1 ≤ cap) :
    ∀ inputs : List MemoryItem, ∀ st : StmState, st.items.length ≤ cap →
      (admitAll fit cap st inputs).items.length ≤ cap := by
  intro inputs
  induction inputs with
  | nil => intro st h; simpa [admitAll] using h
  | cons i rest ih =>
    intro st h
    unfold admitAll
    cases ha : add_to_stm fit cap st i with
    | error e => exact ih st h
    | ok st2 => exact ih st2 (add_to_stm_length_le fit cap hcap st h i st2 ha)

/-- Helper: an admission into a full STM succeeds, archiving a lowest-fitness
STM item and leaving STM exactly at capacity. -/
theorem add_to_stm_at_capacity (fit : MemoryItem → ℚ) (cap : Nat) (hcap : 1 ≤ cap)
    (st : StmState) (item : MemoryItem) (hlen : st.items.length = cap)
    (hc : item.content ≠ "") :
    ∃ st2 v, add_to_stm fit cap st item = Except.ok st2 ∧ v ∈ st.items ∧
      (∀ m ∈ st.items, fit v ≤ fit m) ∧ st2.archived = st.archived ++ [v] ∧
      st2.items.length = cap := by
  have hne : st.items ≠ [] := by
    intro h0
    rw [h0] at hlen
    simp at hlen
    omega
  obtain ⟨v, hv⟩ := minByFitness_some fit st.items hne
  have hvm : v ∈ st.items := minByFitness_mem fit st.items v hv
  have hcl : cap ≤ st.items.length := le_of_eq hlen.symm
  refine ⟨{ items := eraseItem v st.items ++ [item],
            archived := st.archived ++ [v] }, v, ?_, hvm,
          minByFitness_le fit st.items v hv, rfl, ?_⟩
  · unfold add_to_stm
    rw [if_neg hc, if_pos hcl]
    unfold evictLowest
    rw [hv]
  · simp only [List.length_append, List.length_singleton]
    have := eraseItem_length v st.items hvm
    omega

/-- Claim C2: starting within capacity, STM size never exceeds `stm_capacity`
after any sequence of admissions completes; and whenever STM sits exactly at
capacity, admitting a non-empty item succeeds (never fails for capacity),
archiving an STM item of minimal fitness and leaving STM at capacity. -/
theorem stm_capacity_invariant (fit : MemoryItem → ℚ) (cap : Nat) (hcap : 1 ≤ cap)
    (st0 : StmState) (h0 : st0.items.length ≤ cap) (inputs : List MemoryItem) :
    (admitAll fit cap st0 inputs).items.length ≤ cap ∧
    ∀ st : StmState, ∀ item : MemoryItem, st.items.length = cap →
      item.content ≠ "" →
      ∃ st2 v, add_to_stm fit cap st item = Except.ok st2 ∧ v ∈ st.items ∧
        (∀ m ∈ st.items, fit v ≤ fit m) ∧ st2.archived = st.archived ++ [v] ∧
        st2.items.length = cap :=
  ⟨admitAll_length_le fit cap hcap inputs st0 h0,
   fun st item hlen hc => add_to_stm_at_capacity fit cap hcap st item hlen hc⟩

/-- Witness for `stm_capacity_invariant`: capacity 1, empty start, two
admissions. -/
theorem stm_capacity_invariant_witness :
    1 ≤ 1 ∧ (StmState.mk [] []).items.length ≤ 1 ∧
    ((admitAll (fun m => m.importance_score) 1 (StmState.mk [] [])
        [touchedItem, ltmItem]).items.length ≤ 1 ∧
      ∀ st : StmState, ∀ item : MemoryItem, st.items.length = 1 →
        item.content ≠ "" →
        ∃ st2 v, add_to_stm (fun m => m.importance_score) 1 st item = Except.ok st2 ∧
          v ∈ st.items ∧ (∀ m ∈ st.items, v.importance_score ≤ m.importance_score) ∧
          st2.archived = st.archived ++ [v] ∧ st2.items.length = 1) :=
  ⟨Nat.le_refl 1, by simp,
    stm_capacity_invariant (fun m => m.importance_score) 1 (Nat.le_refl 1)
      (StmState.mk [] []) (by simp) [touchedItem, ltmItem]⟩

/-- Claim C5: after archiving an item, no other item's connections list still
contains the archived item's id — archiving severs every back-reference, for
every store and every connection graph. -/
theorem archive_severs_connections (store : List MemoryItem) (tid : Nat)
    (m : MemoryItem) (hm : m ∈ archive_memory store tid) (hmne : m.id ≠ tid) :
    tid ∉ m.connections := by
  rcases List.mem_map.mp hm with ⟨a, _, rfl⟩
  by_cases h : a.id = tid
  · simp [h]
  · simp [h, List.mem_filter]

/-- Witness for `archive_severs_connections`: archiving item 1 out of the pair
{1 ↔ 2} leaves item 2 with no reference to 1. -/
theorem archive_severs_connections_witness :
    { connB with connections := ([] : List Nat) } ∈ archive_memory [connA, connB] 1 ∧
    ({ connB with connections := ([] : List Nat) } : MemoryItem).id ≠ 1 ∧
    1 ∉ ({ connB with connections := ([] : List Nat) } : MemoryItem).connections :=
  ⟨by decide, by decide,
    archive_severs_connections [connA, connB] 1
      { connB with connections := ([] : List Nat) } (by decide) (by decide)⟩

end SesDma
